import Mathlib

/-!
Verification of the telemetry ingestion bridge (services/iot_service/iot_service.py).

The development shallowly embeds the message-handling pipeline of the service:

* Python runtime values that can appear in a decoded JSON payload (and the
  datetime objects that the timestamp-parsing step substitutes in place) are
  modelled by the inductive type PyVal; dictionaries are association lists.
* The numeric builtins int() and float(), string conversion str(), the UTF-8
  payload decoding of bytes.decode(), and datetime.fromisoformat() are
  modelled faithfully for the value shapes the service can encounter; Python
  floats are represented by rationals extended with inf, -inf and nan (no
  claim below depends on rounding of float arithmetic, only on conversion
  success, failure class and truncation).
* The database connection is a small transaction-state machine and the
  insert is an oracle parameter (the store is external); json.loads is a
  function parameter of the listener (the JSON grammar is external to the
  service, the claims are about what the service does with the parsed value).

Definitions mirror the source line by line; theorems at the end settle the
frozen claims.
-/

namespace IotService

/-- An unnormalized rational: numerator and (positive, by construction)
denominator. Finite Python floats are modelled by these; no claim depends
on binary rounding of float arithmetic, only on conversion success, failure
class and truncation, so an exact rational carrier is adequate and keeps
every definition kernel-computable. -/
structure PreRat where
  num : Int
  den : Nat
deriving DecidableEq, Repr

/-- The rational with denominator one. -/
def PreRat.ofInt (n : Int) : PreRat := ⟨n, 1⟩

/-- Python float values: a finite value, the two infinities and nan. -/
inductive PyFloat where
  | finite (q : PreRat)
  | inf
  | neginf
  | nan
deriving DecidableEq, Repr

/-- Timezone attached to a datetime: pytz.UTC, or a fixed offset produced by
datetime.fromisoformat (seconds east of UTC). -/
inductive Tz where
  | utc
  | fixedOffset (seconds : Int)
deriving DecidableEq, Repr

/-- A Python datetime.datetime value as produced by fromisoformat and by the
tzinfo replacement in on_message. -/
structure PyDatetime where
  year : Nat
  month : Nat
  day : Nat
  hour : Nat
  minute : Nat
  second : Nat
  microsecond : Nat
  tz : Option Tz
deriving DecidableEq, Repr

/-- The Python exception classes that the service's handlers distinguish. -/
inductive PyExn where
  | valueError
  | typeError
  | overflowError
  | attributeError
  | jsonDecodeError
deriving DecidableEq, Repr

/-- Python values reachable in the pipeline: JSON-decoded data plus the
datetime that replaces the timestamp string. -/
inductive PyVal where
  | null
  | bool (b : Bool)
  | int (n : Int)
  | float (f : PyFloat)
  | str (s : String)
  | list (xs : List PyVal)
  | dict (entries : List (String × PyVal))
  | dt (d : PyDatetime)
deriving Repr

/-- A Python dict with string keys, as produced by json.loads: an
association list (json.loads yields duplicate-free key lists; the operations
below agree with Python dict semantics on such lists). -/
abbrev Dict := List (String × PyVal)

/-- Dictionary lookup, data[k] and data.get(k). -/
def dGet : Dict → String → Option PyVal
  | [], _ => none
  | (k, v) :: rest, key => if k = key then some v else dGet rest key

/-- Dictionary update, data[k] = v: overwrite in place if present, else
append (Python dicts keep insertion order). -/
def dSet : Dict → String → PyVal → Dict
  | [], key, v => [(key, v)]
  | (k, w) :: rest, key, v =>
      if k = key then (k, v) :: rest else (k, w) :: dSet rest key v

/-- Dictionary removal, data.pop(k) discarding the popped value. -/
def dRemove : Dict → String → Dict
  | [], _ => []
  | (k, v) :: rest, key =>
      if k = key then dRemove rest key else (k, v) :: dRemove rest key

/-- Decimal digit value of a character. -/
def digitVal (c : Char) : Nat := c.toNat - 48

/-- Worker for digitGroup: consume further digits, allowing single
underscores between digits (Python numeric literal rule). -/
def digitGroupGo (acc nd : Nat) : List Char → Nat × Nat × List Char
  | '_' :: c :: cs =>
      if c.isDigit then digitGroupGo (acc * 10 + digitVal c) (nd + 1) cs
      else (acc, nd, '_' :: c :: cs)
  | c :: cs =>
      if c.isDigit then digitGroupGo (acc * 10 + digitVal c) (nd + 1) cs
      else (acc, nd, c :: cs)
  | [] => (acc, nd, [])

/-- Consume a maximal digit group; returns the accumulated value, the digit
count and the unconsumed rest, or none when the input does not start with a
digit. -/
def digitGroup : List Char → Option (Nat × Nat × List Char)
  | [] => none
  | c :: cs => if c.isDigit then some (digitGroupGo (digitVal c) 1 cs) else none

/-- Whitespace stripped by Python's int() and float() on strings (ASCII
whitespace suffices for the payloads at issue). -/
def isPyWs (c : Char) : Bool :=
  c = ' ' ∨ c = '\t' ∨ c = '\n' ∨ c = '\r' ∨ c = Char.ofNat 11 ∨ c = Char.ofNat 12

/-- Strip leading and trailing whitespace. -/
def stripWs (cs : List Char) : List Char :=
  ((cs.dropWhile isPyWs).reverse.dropWhile isPyWs).reverse

/-- Full digit group: the whole input is one digit group. -/
def allDigitsVal (cs : List Char) : Option Nat :=
  match digitGroup cs with
  | some (v, _, []) => some v
  | _ => none

/-- The Python builtin int() applied to a str: optional whitespace, optional
sign, digits (with underscores between digits); none models ValueError. -/
def pyIntOfString (s : String) : Option Int :=
  match stripWs s.toList with
  | '+' :: cs => (allDigitsVal cs).map Int.ofNat
  | '-' :: cs => (allDigitsVal cs).map (fun n => -(Int.ofNat n))
  | cs => (allDigitsVal cs).map Int.ofNat

/-- Scale a rational by a signed power of ten (the exponent of a float
literal). -/
def scalePow10 (mant : PreRat) (neg : Bool) (e : Nat) : PreRat :=
  if neg then ⟨mant.num, mant.den * 10 ^ e⟩ else ⟨mant.num * 10 ^ e, mant.den⟩

/-- Signed exponent digits of a float literal. -/
def floatExpDigits (mant : PreRat) (r : List Char) : Option PreRat :=
  match r with
  | '+' :: r2 => (allDigitsVal r2).map (scalePow10 mant false)
  | '-' :: r2 => (allDigitsVal r2).map (scalePow10 mant true)
  | r2 => (allDigitsVal r2).map (scalePow10 mant false)

/-- Optional exponent part of a float literal. -/
def floatExpPart (mant : PreRat) : List Char → Option PreRat
  | [] => some mant
  | 'e' :: r => floatExpDigits mant r
  | 'E' :: r => floatExpDigits mant r
  | _ => none

/-- Mantissa and exponent of a float literal after the optional sign:
digits, optional point with optional fraction digits, optional exponent. -/
def floatMagnitude (cs : List Char) : Option PreRat :=
  match digitGroup cs with
  | some (ip, _, rest) =>
      match rest with
      | [] => some (PreRat.ofInt ip)
      | '.' :: r2 =>
          (match digitGroup r2 with
           | some (fp, nf, r3) => floatExpPart ⟨ip * 10 ^ nf + fp, 10 ^ nf⟩ r3
           | none => floatExpPart (PreRat.ofInt ip) r2)
      | _ => floatExpPart (PreRat.ofInt ip) rest
  | none =>
      match cs with
      | '.' :: r2 =>
          (match digitGroup r2 with
           | some (fp, nf, r3) => floatExpPart ⟨fp, 10 ^ nf⟩ r3
           | none => none)
      | _ => none

/-- Unsigned body of a float() string conversion; the flag is a leading
minus sign. -/
def pyFloatBody (cs : List Char) (neg : Bool) : Option PyFloat :=
  let low := cs.map Char.toLower
  if low = "inf".toList ∨ low = "infinity".toList then
    some (if neg then .neginf else .inf)
  else if low = "nan".toList then some .nan
  else
    (floatMagnitude cs).map (fun q => .finite (if neg then ⟨-q.num, q.den⟩ else q))

/-- The Python builtin float() applied to a str (whitespace, optional sign,
decimal literal or the words inf, infinity, nan); none models ValueError. -/
def pyFloatOfString (s : String) : Option PyFloat :=
  match stripWs s.toList with
  | '+' :: cs => pyFloatBody cs false
  | '-' :: cs => pyFloatBody cs true
  | cs => pyFloatBody cs false

/-- Truncation toward zero, the behaviour of Python's int() on a float. -/
def ratTrunc (q : PreRat) : Int := q.num.tdiv (q.den : Int)

/-- The Python builtin int() on the values the pipeline can hold. int of an
infinite float raises OverflowError (not ValueError or TypeError); int of
nan raises ValueError; non-numeric non-string types raise TypeError. -/
def pyToInt : PyVal → Except PyExn Int
  | .bool b => .ok (if b then 1 else 0)
  | .int n => .ok n
  | .float (.finite q) => .ok (ratTrunc q)
  | .float .inf => .error .overflowError
  | .float .neginf => .error .overflowError
  | .float .nan => .error .valueError
  | .str s =>
      match pyIntOfString s with
      | some n => .ok n
      | none => .error .valueError
  | .null => .error .typeError
  | .list _ => .error .typeError
  | .dict _ => .error .typeError
  | .dt _ => .error .typeError

/-- The Python builtin float() on the values the pipeline can hold. -/
def pyToFloat : PyVal → Except PyExn PyFloat
  | .bool b => .ok (.finite (PreRat.ofInt (if b then 1 else 0)))
  | .int n => .ok (.finite (PreRat.ofInt n))
  | .float f => .ok f
  | .str s =>
      match pyFloatOfString s with
      | some f => .ok f
      | none => .error .valueError
  | .null => .error .typeError
  | .list _ => .error .typeError
  | .dict _ => .error .typeError
  | .dt _ => .error .typeError

/-- The Python builtin str() on scalar values; the rendering of nested
containers, datetimes and finite floats is abbreviated (no claim observes
the rendered text, only that the field becomes a string). -/
def pyStr : PyVal → String
  | .str s => s
  | .bool true => "True"
  | .bool false => "False"
  | .int n => toString n
  | .null => "None"
  | .float (.finite q) => toString q.num ++ "/" ++ toString q.den
  | .float .inf => "inf"
  | .float .neginf => "-inf"
  | .float .nan => "nan"
  | .list _ => "[...]"
  | .dict _ => "\x7b...\x7d"
  | .dt _ => "datetime(...)"

/-- Python truthiness of the values the pipeline can hold. -/
def truthy : PyVal → Bool
  | .null => false
  | .bool b => b
  | .int n => n != 0
  | .float (.finite q) => q.num != 0
  | .float _ => true
  | .str s => !s.toList.isEmpty
  | .list xs => !xs.isEmpty
  | .dict m => !m.isEmpty
  | .dt _ => true

/-- Membership in the except clause (ValueError, TypeError) of
store_sensor_data's per-field conversion. -/
def caughtVT : PyExn → Bool
  | .valueError => true
  | .typeError => true
  | _ => false

/-- Continuation byte of a UTF-8 sequence. -/
def contByte (b : Nat) : Bool := 128 ≤ b ∧ b ≤ 191

/-- Strict UTF-8 decoding of a byte sequence, the behaviour of Python's
bytes.decode(): rejects stray continuation bytes, truncated sequences,
overlong encodings, surrogates and code points beyond U+10FFFF; none models
UnicodeDecodeError. -/
def decodeUtf8 : List Nat → Option (List Char)
  | [] => some []
  | b :: bs =>
      if b ≤ 127 then
        (decodeUtf8 bs).map (fun cs => Char.ofNat b :: cs)
      else if 194 ≤ b ∧ b ≤ 223 then
        match bs with
        | b1 :: bs2 =>
            if contByte b1 then
              (decodeUtf8 bs2).map
                (fun cs => Char.ofNat ((b - 192) * 64 + (b1 - 128)) :: cs)
            else none
        | [] => none
      else if 224 ≤ b ∧ b ≤ 239 then
        match bs with
        | b1 :: b2 :: bs2 =>
            let lo1 := if b = 224 then 160 else 128
            let hi1 := if b = 237 then 159 else 191
            if (lo1 ≤ b1 ∧ b1 ≤ hi1) ∧ contByte b2 then
              (decodeUtf8 bs2).map
                (fun cs =>
                  Char.ofNat ((b - 224) * 4096 + (b1 - 128) * 64 + (b2 - 128)) :: cs)
            else none
        | _ => none
      else if 240 ≤ b ∧ b ≤ 244 then
        match bs with
        | b1 :: b2 :: b3 :: bs2 =>
            let lo1 := if b = 240 then 144 else 128
            let hi1 := if b = 244 then 143 else 191
            if (lo1 ≤ b1 ∧ b1 ≤ hi1) ∧ contByte b2 ∧ contByte b3 then
              (decodeUtf8 bs2).map
                (fun cs =>
                  Char.ofNat
                    ((b - 240) * 262144 + (b1 - 128) * 4096 + (b2 - 128) * 64 +
                      (b3 - 128)) :: cs)
            else none
        | _ => none
      else none

/-- Read exactly two decimal digits. -/
def twoDigits : List Char → Option (Nat × List Char)
  | a :: b :: rest =>
      if a.isDigit ∧ b.isDigit then some (10 * digitVal a + digitVal b, rest)
      else none
  | _ => none

/-- Read exactly four decimal digits. -/
def fourDigits : List Char → Option (Nat × List Char)
  | a :: b :: c :: d :: rest =>
      if a.isDigit ∧ b.isDigit ∧ c.isDigit ∧ d.isDigit then
        some (1000 * digitVal a + 100 * digitVal b + 10 * digitVal c + digitVal d, rest)
      else none
  | _ => none

/-- Day count of a month in the proleptic Gregorian calendar. -/
def daysInMonth (y m : Nat) : Nat :=
  if m = 2 then
    if y % 4 = 0 ∧ (y % 100 ≠ 0 ∨ y % 400 = 0) then 29 else 28
  else if m = 4 ∨ m = 6 ∨ m = 9 ∨ m = 11 then 30
  else 31

/-- Parse an exact YYYY-MM-DD date (the first ten characters handed to
datetime.fromisoformat), with datetime's range validation. -/
def parseIsoDate (cs : List Char) : Option (Nat × Nat × Nat) :=
  match fourDigits cs with
  | some (y, '-' :: r1) =>
      match twoDigits r1 with
      | some (mo, '-' :: r2) =>
          match twoDigits r2 with
          | some (d, []) =>
              if 1 ≤ y ∧ 1 ≤ mo ∧ mo ≤ 12 ∧ 1 ≤ d ∧ d ≤ daysInMonth y mo then
                some (y, mo, d)
              else none
          | _ => none
      | _ => none
  | _ => none

/-- Value of a list of decimal digits. -/
def digitsToNat (cs : List Char) : Nat :=
  cs.foldl (fun acc c => acc * 10 + digitVal c) 0

/-- Parse HH, HH:MM, HH:MM:SS or HH:MM:SS.fff(fff), mirroring the helper
that fromisoformat applies to the time portion and to a timezone offset
(components are not range-checked here, exactly as in the runtime). -/
def parseHMSF (cs : List Char) : Option (Nat × Nat × Nat × Nat) :=
  match twoDigits cs with
  | none => none
  | some (h, r1) =>
      match r1 with
      | [] => some (h, 0, 0, 0)
      | ':' :: r2 =>
          match twoDigits r2 with
          | none => none
          | some (mi, r3) =>
              match r3 with
              | [] => some (h, mi, 0, 0)
              | ':' :: r4 =>
                  match twoDigits r4 with
                  | none => none
                  | some (se, r5) =>
                      match r5 with
                      | [] => some (h, mi, se, 0)
                      | '.' :: r6 =>
                          if r6.length = 3 ∧ r6.all Char.isDigit then
                            some (h, mi, se, 1000 * digitsToNat r6)
                          else if r6.length = 6 ∧ r6.all Char.isDigit then
                            some (h, mi, se, digitsToNat r6)
                          else none
                      | _ => none
              | _ => none
      | _ => none

/-- First index of a character in a list. -/
def firstIdxOf (c : Char) : List Char → Option Nat
  | [] => none
  | x :: xs => if x = c then some 0 else (firstIdxOf c xs).map (fun i => i + 1)

/-- Parse the time-and-offset portion of an isoformat string: fromisoformat
splits at the first minus or plus sign, reads the time before it and the
offset after it; the offset text must be 5, 8 or 15 characters and the
resulting offset strictly less than 24 hours. -/
def parseIsoTime (tstr : List Char) : Option (Nat × Nat × Nat × Nat × Option Tz) :=
  if tstr.length < 2 then none
  else
    let tzpos :=
      match firstIdxOf '-' tstr with
      | some i => some (i, true)
      | none =>
          match firstIdxOf '+' tstr with
          | some i => some (i, false)
          | none => none
    match tzpos with
    | none => (parseHMSF tstr).map (fun (h, mi, se, us) => (h, mi, se, us, none))
    | some (i, isNeg) =>
        match parseHMSF (tstr.take i) with
        | none => none
        | some (h, mi, se, us) =>
            let tzstr := tstr.drop (i + 1)
            if tzstr.length = 5 ∨ tzstr.length = 8 ∨ tzstr.length = 15 then
              match parseHMSF tzstr with
              | none => none
              | some (zh, zm, zs, _) =>
                  let total : Nat := zh * 3600 + zm * 60 + zs
                  if total < 86400 then
                    let off : Int := if isNeg then -(total : Int) else (total : Int)
                    some (h, mi, se, us, some (.fixedOffset off))
                  else none
            else none

/-- The datetime.fromisoformat classmethod as the service's runtime provides
it: YYYY-MM-DD, optionally followed by one separator character, a time and
an optional fixed offset; time fields are range-validated by the datetime
constructor. The Z suffix is not accepted (the service strips it itself). -/
def fromisoformat (s : String) : Option PyDatetime :=
  let cs := s.toList
  if cs.length < 10 then none
  else
    match parseIsoDate (cs.take 10) with
    | none => none
    | some (y, mo, d) =>
        if cs.length = 10 then
          some ⟨y, mo, d, 0, 0, 0, 0, none⟩
        else
          match parseIsoTime (cs.drop 11) with
          | none => none
          | some (h, mi, se, us, tz) =>
              if h ≤ 23 ∧ mi ≤ 59 ∧ se ≤ 59 then
                some ⟨y, mo, d, h, mi, se, us, tz⟩
              else none

/-! The persistence writer, store_sensor_data (iot_service.py lines 65-144). -/

/-- The numeric_fields list of store_sensor_data (line 75). -/
def numericFieldNames : List String :=
  ["temperature", "humidity", "pressure", "wifi_rssi", "uptime_seconds",
   "fan_pwm", "fans_active_level"]

/-- The integer-typed subset tested on line 80. -/
def intFieldNames : List String :=
  ["uptime_seconds", "fan_pwm", "fans_active_level", "wifi_rssi"]

/-- The text_fields list of store_sensor_data (line 91). -/
def textFieldNames : List String :=
  ["motion", "switch", "version", "uptime", "temp_sensor_type"]

/-- The expected_fields list of store_sensor_data (lines 101-105). -/
def expectedFieldNames : List String :=
  ["time", "device_id", "event_type", "temperature", "humidity",
   "pressure", "temp_sensor_type", "motion", "switch", "version", "uptime",
   "wifi_rssi", "uptime_seconds", "fan_pwm", "fans_active_level"]

/-- The Python test value is None. -/
def isNullV : PyVal → Bool
  | .null => true
  | _ => false

/-- One numeric conversion (lines 80-83): int() for the integer-typed
fields, float() for the rest. -/
def convertNum (k : String) (v : PyVal) : Except PyExn PyVal :=
  if k ∈ intFieldNames then (pyToInt v).map .int else (pyToFloat v).map .float

/-- One iteration of the numeric-coercion loop (lines 76-88): skip the field
when absent or None; otherwise convert; a ValueError or TypeError degrades
the field to None with a warning; any other exception (OverflowError)
escapes the loop. The Bool records whether a warning was logged. -/
def numericStep (k : String) (m : Dict) : Except PyExn (Dict × Bool) :=
  match dGet m k with
  | none => .ok (m, false)
  | some v =>
      if isNullV v then .ok (m, false)
      else
        match convertNum k v with
        | .ok x => .ok (dSet m k x, false)
        | .error e =>
            if caughtVT e then .ok (dSet m k .null, true) else .error e

/-- The numeric-coercion loop over a list of keys, collecting the keys that
were degraded to None with a warning. -/
def numericLoop : List String → Dict → Except PyExn (Dict × List String)
  | [], m => .ok (m, [])
  | k :: ks, m =>
      match numericStep k m with
      | .error e => .error e
      | .ok (m1, warned) =>
          match numericLoop ks m1 with
          | .error e => .error e
          | .ok (m2, ws) => .ok (m2, (if warned then [k] else []) ++ ws)

/-- One iteration of the text-coercion loop (lines 92-94): str() conversion
when the key is present and not None. -/
def textStep (k : String) (m : Dict) : Dict :=
  match dGet m k with
  | none => m
  | some v => if isNullV v then m else dSet m k (.str (pyStr v))

/-- The text-coercion loop. -/
def textLoop : List String → Dict → Dict
  | [], m => m
  | k :: ks, m => textLoop ks (textStep k m)

/-- The event_type setdefault of line 72. -/
def evDefault (m : Dict) : Dict :=
  if (dGet m "event_type").isSome then m else dSet m "event_type" (.str "unknown")

/-- The timestamp-to-time rename of lines 97-98: db_data["time"] =
db_data.pop("timestamp") whenever the key is present. -/
def renameTs (m : Dict) : Dict :=
  match dGet m "timestamp" with
  | none => m
  | some v => dSet (dRemove m "timestamp") "time" v

/-- One iteration of the expected-fields fill (lines 107-109): a missing
key is added with None. -/
def fillStep (k : String) (m : Dict) : Dict :=
  if (dGet m k).isSome then m else dSet m k .null

/-- The expected-fields fill loop. -/
def fillLoop : List String → Dict → Dict
  | [], m => m
  | k :: ks, m => fillLoop ks (fillStep k m)

/-- The record preparation of store_sensor_data before the insert (lines
69-109): copy, event_type default, numeric coercion, text coercion, rename,
fill. An uncaught conversion exception aborts preparation. -/
def storePrep (data : Dict) : Except PyExn (Dict × List String) :=
  match numericLoop numericFieldNames (evDefault data) with
  | .error e => .error e
  | .ok (m2, warns) =>
      .ok (fillLoop expectedFieldNames (renameTs (textLoop textFieldNames m2)), warns)

/-- Transactional state of the shared psycopg2 connection. -/
inductive TxState where
  | idle
  | inTx
  | aborted
deriving DecidableEq, Repr

/-- The shared database connection db_conn. -/
structure DbConn where
  tx : TxState
deriving DecidableEq, Repr

/-- Executing the parameterized insert on the shared connection: success
opens a transaction; a store-level failure (decided by the oracle, which
stands for the external database) leaves the transaction aborted until a
rollback. -/
def execInsert (execOk : Dict → Bool) (_ : DbConn) (rec : Dict) : DbConn × Bool :=
  if execOk rec then (⟨.inTx⟩, true) else (⟨.aborted⟩, false)

/-- db_conn.commit(). -/
def commitDb (_ : DbConn) : DbConn := ⟨.idle⟩

/-- db_conn.rollback(). -/
def rollbackDb (_ : DbConn) : DbConn := ⟨.idle⟩

/-- Everything the service writes to its log that a claim observes. -/
inductive LogEntry where
  | infoReceived (text : String)
  | warnNumeric (key : String)
  | infoStoring (rec : Dict)
  | infoStored (rec : Dict)
  | errDbData (rec : Dict)
  | errUnexpectedData (rec : Dict)
  | errDecodingJson
  | errProcessing
  | errRaw (text : String)

/-- Result of one store_sensor_data call. -/
inductive StoreOutcome where
  | committed (rec : Dict) (warned : List String)
  | dbRolledBack (rec : Dict) (warned : List String)
  | unexpectedRolledBack

/-- The function store_sensor_data (lines 65-144): prepare the record,
insert and commit; a psycopg2 error is logged with the offending record and
rolled back; any other exception (an OverflowError escaping the coercion
loop) is logged and rolled back the same way. The function always returns
normally. -/
def store_sensor_data (execOk : Dict → Bool) (conn : DbConn) (data : Dict) :
    DbConn × StoreOutcome × List LogEntry :=
  match storePrep data with
  | .error _ => (rollbackDb conn, .unexpectedRolledBack, [.errUnexpectedData data])
  | .ok (rec, warns) =>
      let wlog := warns.map LogEntry.warnNumeric
      let (c1, ok) := execInsert execOk conn rec
      if ok then
        (commitDb c1, .committed rec warns, wlog ++ [.infoStoring rec, .infoStored rec])
      else
        (rollbackDb c1, .dbRolledBack rec warns, wlog ++ [.infoStoring rec, .errDbData rec])

/-! The bus listener's per-message handler, on_message (lines 153-204). -/

/-- The left brace character. -/
def lbrace : Char := Char.ofNat 123

/-- Substring containment, the Python expression needle in haystack. -/
def listContains (needle : List Char) : List Char → Bool
  | [] => needle.isEmpty
  | c :: rest => needle.isPrefixOf (c :: rest) || listContains needle rest

/-- The non-JSON prefix marker of line 160. -/
def markerChars : List Char := "MQTT event:".toList

/-- The JSON text extraction of lines 159-170: when the marker is present,
take the substring from the first left brace, raising ValueError when there
is none; otherwise the whole text is the JSON payload. -/
def extractJsonText (t : String) : Except PyExn String :=
  let cs := t.toList
  if listContains markerChars cs then
    match firstIdxOf lbrace cs with
    | some i => .ok ⟨cs.drop i⟩
    | none => .error .valueError
  else .ok t

/-- The local variable of line 173, data.get("device_id", "unknown"). The
assignment is dead code: the variable is never used again, and in
particular it is never written back into the record that is stored. -/
def deviceIdLocal (data : Dict) : PyVal :=
  (dGet data "device_id").getD (.str "unknown")

/-- Replace the tzinfo of a datetime by pytz.UTC (dt.replace(tzinfo=pytz.UTC)). -/
def withUTC (d : PyDatetime) : PyDatetime :=
  { d with tz := some .utc }

/-- The timestamp-parsing step of lines 176-190: skipped when the key is
absent or its value falsy; a trailing Z is stripped and the result tagged
UTC; otherwise fromisoformat is used and a missing offset is assumed UTC.
The step has no exception handler of its own: an unparseable string raises
ValueError and a non-string truthy value raises AttributeError (no endswith
attribute), both escaping to the handler's outer except clause. -/
def tsStep (data : Dict) : Except PyExn Dict :=
  match dGet data "timestamp" with
  | none => .ok data
  | some v =>
      if truthy v then
        match v with
        | .str s =>
            if s.toList.getLast? = some 'Z' then
              match fromisoformat ⟨s.toList.dropLast⟩ with
              | some d => .ok (dSet data "timestamp" (.dt (withUTC d)))
              | none => .error .valueError
            else
              match fromisoformat s with
              | some d =>
                  if d.tz.isNone then .ok (dSet data "timestamp" (.dt (withUTC d)))
                  else .ok (dSet data "timestamp" (.dt d))
              | none => .error .valueError
        | _ => .error .attributeError
      else .ok data

/-- Result of one on_message invocation. -/
inductive MsgOutcome where
  | stored (s : StoreOutcome)
  | jsonErr
  | procErr
  | crashed

/-- Handling of a successfully parsed JSON value (lines 173-193): a
non-dict value fails at the device_id extraction (AttributeError on .get),
a failing timestamp step is caught by the outer except clause and logged
with the raw message, and otherwise the record is handed to the writer. -/
def handleParsed (execOk : Dict → Bool) (conn : DbConn) (t : String) (v : PyVal) :
    DbConn × MsgOutcome × List LogEntry :=
  match v with
  | .dict data =>
      match tsStep data with
      | .error _ => (conn, .procErr, [.errProcessing, .errRaw t])
      | .ok data2 =>
          let r := store_sensor_data execOk conn data2
          (r.1, .stored r.2.1, r.2.2)
  | _ => (conn, .procErr, [.errProcessing, .errRaw t])

/-- Handling of the decoded message text (lines 159-204): extract the JSON
text, parse it with json.loads (a parameter: the JSON grammar is external
to the service), dispatch exceptions to the two except clauses, both of
which log the raw message text. -/
def handle_text (jloads : String → Except Unit PyVal) (execOk : Dict → Bool)
    (conn : DbConn) (t : String) : DbConn × MsgOutcome × List LogEntry :=
  match extractJsonText t with
  | .error _ => (conn, .procErr, [.errProcessing, .errRaw t])
  | .ok jtext =>
      match jloads jtext with
      | .error _ => (conn, .jsonErr, [.errDecodingJson, .errRaw t])
      | .ok v => handleParsed execOk conn t v

/-- The callback on_message (lines 153-204). When the payload fails UTF-8
decoding, the except-Exception clause logs the exception and then evaluates
the f-string of line 204, which reads the local message_text that the
failed line 156 never assigned: the resulting NameError escapes the
callback (outcome crashed). For a decodable payload the handler always
returns normally. -/
def on_message (jloads : String → Except Unit PyVal) (execOk : Dict → Bool)
    (conn : DbConn) (payload : List Nat) : DbConn × MsgOutcome × List LogEntry :=
  match decodeUtf8 payload with
  | none => (conn, .crashed, [.errProcessing])
  | some cs =>
      let t : String := ⟨cs⟩
      let r := handle_text jloads execOk conn t
      (r.1, r.2.1, .infoReceived t :: r.2.2)

/-! The connection manager, get_db_connection (lines 47-62). -/

/-- The retry loop of get_db_connection, fuel-indexed so the recursion is
structural: attempt is the index of the next connection attempt, slept the
seconds spent sleeping so far; each failed attempt sleeps five seconds
before the next. The outcomes function stands for the external store: some
handle when psycopg2.connect succeeds, none when it raises
OperationalError. -/
def connectLoop (outcomes : Nat → Option Nat) : Nat → Nat → Nat → Option (Nat × Nat × Nat)
  | _, _, 0 => none
  | attempt, slept, fuel + 1 =>
      match outcomes attempt with
      | some c => some (c, attempt, slept)
      | none => connectLoop outcomes (attempt + 1) (slept + 5) fuel

/-- The function get_db_connection: loops until some attempt succeeds, so
it is total exactly when an attempt eventually succeeds; it returns the
connection handle, the number of failed attempts before it, and the seconds
slept. -/
def get_db_connection (outcomes : Nat → Option Nat)
    (h : ∃ n, (outcomes n).isSome) : Nat × Nat × Nat :=
  (connectLoop outcomes 0 0 (Nat.find h + 1)).getD (0, 0, 0)

/-! Field-local characterizations of the preparation pipeline. These are
reference semantics that the theorems below relate to the loops of
store_sensor_data; each describes the fate of one field as a function of
that field's inbound value alone. -/

/-- Outcome of the numeric coercion on one field value. -/
def numValOut (k : String) : Option PyVal → Option PyVal
  | none => none
  | some v =>
      if isNullV v then some v
      else
        match convertNum k v with
        | .ok x => some x
        | .error _ => some .null

/-- The exception, if any, that the numeric coercion of one field lets
escape (an error outside the ValueError/TypeError clause). -/
def numExn (k : String) : Option PyVal → Option PyExn
  | none => none
  | some v =>
      if isNullV v then none
      else
        match convertNum k v with
        | .ok _ => none
        | .error e => if caughtVT e then none else some e

/-- Whether the numeric coercion of one field logs a warning. -/
def warnsAt (k : String) : Option PyVal → Bool
  | none => false
  | some v =>
      if isNullV v then false
      else
        match convertNum k v with
        | .ok _ => false
        | .error e => caughtVT e

/-- Outcome of the text coercion on one field value. -/
def textValOut : Option PyVal → Option PyVal
  | none => none
  | some v => if isNullV v then some v else some (.str (pyStr v))

/-- Preparation succeeds (no conversion exception escapes the numeric
loop). -/
def prepOk (data : Dict) : Prop :=
  ∀ k ∈ numericFieldNames, numExn k (dGet data k) = none

instance (data : Dict) : Decidable (prepOk data) := by
  unfold prepOk
  infer_instance

/-- Final value of one fixed-schema field in the record handed to the
insert, as a function of the inbound value of that field alone (for time,
of the inbound timestamp). -/
def fieldOut (data : Dict) (f : String) : PyVal :=
  if f = "time" then
    match dGet data "timestamp" with
    | some v => v
    | none => (dGet data "time").getD .null
  else if f = "event_type" then (dGet data "event_type").getD (.str "unknown")
  else if f ∈ numericFieldNames then (numValOut f (dGet data f)).getD .null
  else if f ∈ textFieldNames then (textValOut (dGet data f)).getD .null
  else (dGet data f).getD .null

/-! Concrete instantiations used to evaluate the pipeline on the inputs the
claims single out. Each jloads stand-in returns exactly what Python's
json.loads returns on the corresponding message text. -/

/-- json.loads restricted to the text of the empty JSON object. -/
def jloadsEmptyObj : String → Except Unit PyVal := fun s =>
  if s = "\x7b\x7d" then .ok (.dict []) else .error ()

/-- json.loads on a message whose timestamp does not parse as a timestamp. -/
def jloadsBadTs : String → Except Unit PyVal := fun _ =>
  .ok (.dict [("device_id", .str "d1"), ("timestamp", .str "not-a-time")])

/-- json.loads on the round-trip message of the specification, whose
timestamp carries the Z suffix. -/
def jloadsRoundTrip : String → Except Unit PyVal := fun _ =>
  .ok (.dict [("device_id", .str "d1"), ("timestamp", .str "2025-04-21T17:21:47Z")])

/-- The record the writer prepares from the empty JSON object: every
fixed-schema field explicit, event_type defaulted, everything else None. -/
def recOfEmpty : Dict :=
  [("event_type", .str "unknown"), ("time", .null), ("device_id", .null),
   ("temperature", .null), ("humidity", .null), ("pressure", .null),
   ("temp_sensor_type", .null), ("motion", .null), ("switch", .null),
   ("version", .null), ("uptime", .null), ("wifi_rssi", .null),
   ("uptime_seconds", .null), ("fan_pwm", .null), ("fans_active_level", .null)]

/-- A connection-attempt history for exercising the retry loop: the first
two attempts raise OperationalError, the third succeeds. -/
def demoOutcomes : Nat → Option Nat := fun n => if n = 2 then some 7 else none

/-! Lemmas: dictionaries. -/

theorem dGet_dSet_self (m : Dict) (k : String) (v : PyVal) :
    dGet (dSet m k v) k = some v := by
  induction m with
  | nil => simp [dGet, dSet]
  | cons hd tl ih =>
      by_cases h : hd.1 = k
      · simp [dGet, dSet, h]
      · simp [dGet, dSet, h, ih]

theorem dGet_dSet_ne (m : Dict) (k k' : String) (v : PyVal) (h : k ≠ k') :
    dGet (dSet m k v) k' = dGet m k' := by
  induction m with
  | nil => simp [dGet, dSet, h]
  | cons hd tl ih =>
      by_cases hh : hd.1 = k
      · simp [dGet, dSet, hh, h]
      · simp [dGet, dSet, hh, ih]

theorem dGet_dRemove_self (m : Dict) (k : String) :
    dGet (dRemove m k) k = none := by
  induction m with
  | nil => simp [dGet, dRemove]
  | cons hd tl ih =>
      by_cases hh : hd.1 = k
      · simpa [dRemove, hh] using ih
      · simpa [dRemove, hh, dGet] using ih

theorem dGet_dRemove_ne (m : Dict) (k k' : String) (h : k' ≠ k) :
    dGet (dRemove m k) k' = dGet m k' := by
  induction m with
  | nil => simp [dGet, dRemove]
  | cons hd tl ih =>
      by_cases hh : hd.1 = k
      · have hne : hd.1 ≠ k' := by
          intro he
          exact h (he ▸ hh)
        simpa [dRemove, hh, dGet, hne, Ne.symm h] using ih
      · by_cases hk : hd.1 = k'
        · simp [dRemove, hh, dGet, hk, h]
        · simpa [dRemove, hh, dGet, hk, h] using ih

/-! Lemmas: the numeric-coercion loop. -/

theorem numericStep_ok_spec {k : String} {m m1 : Dict} {w : Bool}
    (h : numericStep k m = .ok (m1, w)) :
    dGet m1 k = numValOut k (dGet m k) ∧ w = warnsAt k (dGet m k) ∧
      ∀ f, f ≠ k → dGet m1 f = dGet m f := by
  unfold numericStep at h
  cases hv : dGet m k with
  | none =>
      rw [hv] at h
      simp only [Except.ok.injEq, Prod.mk.injEq] at h
      obtain ⟨rfl, rfl⟩ := h
      exact ⟨by simp [numValOut, hv], by simp [warnsAt, hv], fun f _ => rfl⟩
  | some v =>
      rw [hv] at h
      by_cases hnv : isNullV v
      · simp only [hnv, if_true, Except.ok.injEq, Prod.mk.injEq] at h
        obtain ⟨rfl, rfl⟩ := h
        exact ⟨by simp [numValOut, hv, hnv], by simp [warnsAt, hv, hnv], fun f _ => rfl⟩
      · simp only [hnv, if_false, Bool.false_eq_true] at h
        cases hc : convertNum k v with
        | ok x =>
            rw [hc] at h
            simp only [Except.ok.injEq, Prod.mk.injEq] at h
            obtain ⟨rfl, rfl⟩ := h
            refine ⟨by simp [numValOut, hv, hnv, hc, dGet_dSet_self], ?_, ?_⟩
            · simp [warnsAt, hv, hnv, hc]
            · intro f hf
              exact dGet_dSet_ne m k f x (Ne.symm hf)
        | error e =>
            rw [hc] at h
            by_cases hce : caughtVT e
            · simp only [hce, if_true, Except.ok.injEq, Prod.mk.injEq] at h
              obtain ⟨rfl, rfl⟩ := h
              refine ⟨by simp [numValOut, hv, hnv, hc, dGet_dSet_self], ?_, ?_⟩
              · simp [warnsAt, hv, hnv, hc, hce]
              · intro f hf
                exact dGet_dSet_ne m k f .null (Ne.symm hf)
            · simp [hce] at h

theorem numericStep_err_of {k : String} {m : Dict} {e : PyExn}
    (h : numExn k (dGet m k) = some e) : numericStep k m = .error e := by
  unfold numExn at h
  unfold numericStep
  cases hv : dGet m k with
  | none => rw [hv] at h; simp at h
  | some v =>
      rw [hv] at h
      by_cases hnv : isNullV v
      · simp [hnv] at h
      · simp only [hnv, if_false, Bool.false_eq_true] at h ⊢
        cases hc : convertNum k v with
        | ok x => rw [hc] at h; simp at h
        | error e2 =>
            rw [hc] at h
            by_cases hce : caughtVT e2
            · simp [hce] at h
            · simp only [hce, if_false, Option.some.injEq, Bool.false_eq_true] at h
              subst h
              simp [hce]

theorem numericStep_ok_of {k : String} {m : Dict}
    (h : numExn k (dGet m k) = none) :
    ∃ m1 w, numericStep k m = .ok (m1, w) := by
  cases hs : numericStep k m with
  | ok p => exact ⟨p.1, p.2, rfl⟩
  | error e =>
      unfold numericStep at hs
      unfold numExn at h
      cases hv : dGet m k with
      | none => rw [hv] at hs; simp at hs
      | some v =>
          rw [hv] at hs h
          by_cases hnv : isNullV v
          · simp [hnv] at hs
          · simp only [hnv, if_false, Bool.false_eq_true] at hs h
            cases hc : convertNum k v with
            | ok x => rw [hc] at hs; simp at hs
            | error e2 =>
                rw [hc] at hs h
                by_cases hce : caughtVT e2
                · simp [hce] at hs
                · simp [hce] at h

theorem numericLoop_frame :
    ∀ (ks : List String) (m m2 : Dict) (ws : List String) (f : String),
      f ∉ ks → numericLoop ks m = .ok (m2, ws) → dGet m2 f = dGet m f := by
  intro ks
  induction ks with
  | nil =>
      intro m m2 ws f _ h
      simp only [numericLoop, Except.ok.injEq, Prod.mk.injEq] at h
      rw [h.1]
  | cons k ks ih =>
      intro m m2 ws f hf h
      unfold numericLoop at h
      cases hs : numericStep k m with
      | error e => rw [hs] at h; simp at h
      | ok p =>
          obtain ⟨m1, w⟩ := p
          rw [hs] at h
          dsimp only [] at h
          cases hl : numericLoop ks m1 with
          | error e => rw [hl] at h; simp at h
          | ok p2 =>
              obtain ⟨mm, ws2⟩ := p2
              rw [hl] at h
              dsimp only [] at h
              simp only [Except.ok.injEq, Prod.mk.injEq] at h
              obtain ⟨rfl, _⟩ := h
              have hf1 : f ∉ ks := fun hin => hf (List.mem_cons_of_mem k hin)
              have hfk : f ≠ k := fun he => hf (he ▸ List.mem_cons_self k ks)
              have h1 := ih m1 mm ws2 f hf1 hl
              have h2 := (numericStep_ok_spec hs).2.2 f hfk
              rw [h1, h2]

theorem numericLoop_warns_sub :
    ∀ (ks : List String) (m m2 : Dict) (ws : List String),
      numericLoop ks m = .ok (m2, ws) → ws ⊆ ks := by
  intro ks
  induction ks with
  | nil =>
      intro m m2 ws h
      simp only [numericLoop, Except.ok.injEq, Prod.mk.injEq] at h
      rw [← h.2]
      exact List.Subset.refl []
  | cons k ks ih =>
      intro m m2 ws h
      unfold numericLoop at h
      cases hs : numericStep k m with
      | error e => rw [hs] at h; simp at h
      | ok p =>
          obtain ⟨m1, w⟩ := p
          rw [hs] at h
          dsimp only [] at h
          cases hl : numericLoop ks m1 with
          | error e => rw [hl] at h; simp at h
          | ok p2 =>
              obtain ⟨mm, ws2⟩ := p2
              rw [hl] at h
              dsimp only [] at h
              simp only [Except.ok.injEq, Prod.mk.injEq] at h
              obtain ⟨_, rfl⟩ := h
              intro x hx
              rcases List.mem_append.mp hx with hx1 | hx2
              · by_cases hw : w
                · simp [hw] at hx1
                  exact hx1 ▸ List.mem_cons_self k ks
                · simp [hw] at hx1
              · exact List.mem_cons_of_mem k (ih m1 mm ws2 hl hx2)

theorem numericLoop_ok :
    ∀ (ks : List String) (m : Dict), ks.Nodup →
      (∀ k ∈ ks, numExn k (dGet m k) = none) →
      ∃ m2 ws, numericLoop ks m = .ok (m2, ws) := by
  intro ks
  induction ks with
  | nil =>
      intro m _ _
      exact ⟨m, [], rfl⟩
  | cons k ks ih =>
      intro m hnd hall
      obtain ⟨m1, w, hs⟩ := numericStep_ok_of (hall k (List.mem_cons_self k ks))
      have hspec := numericStep_ok_spec hs
      have hall1 : ∀ j ∈ ks, numExn j (dGet m1 j) = none := by
        intro j hj
        have hjk : j ≠ k := by
          intro he
          exact (List.nodup_cons.mp hnd).1 (he ▸ hj)
        rw [hspec.2.2 j hjk]
        exact hall j (List.mem_cons_of_mem k hj)
      obtain ⟨m2, ws, hl⟩ := ih m1 (List.nodup_cons.mp hnd).2 hall1
      refine ⟨m2, (if w then [k] else []) ++ ws, ?_⟩
      unfold numericLoop
      rw [hs]
      dsimp only []
      rw [hl]

theorem numericLoop_point :
    ∀ (ks : List String) (m m2 : Dict) (ws : List String) (k : String),
      ks.Nodup → k ∈ ks → numericLoop ks m = .ok (m2, ws) →
      dGet m2 k = numValOut k (dGet m k) ∧ (k ∈ ws ↔ warnsAt k (dGet m k) = true) := by
  intro ks
  induction ks with
  | nil =>
      intro m m2 ws k _ hk _
      exact absurd hk (List.not_mem_nil k)
  | cons j ks ih =>
      intro m m2 ws k hnd hk h
      unfold numericLoop at h
      cases hs : numericStep j m with
      | error e => rw [hs] at h; simp at h
      | ok p =>
          obtain ⟨m1, w⟩ := p
          rw [hs] at h
          dsimp only [] at h
          cases hl : numericLoop ks m1 with
          | error e => rw [hl] at h; simp at h
          | ok p2 =>
              obtain ⟨mm, ws2⟩ := p2
              rw [hl] at h
              dsimp only [] at h
              simp only [Except.ok.injEq, Prod.mk.injEq] at h
              obtain ⟨rfl, rfl⟩ := h
              have hspec := numericStep_ok_spec hs
              by_cases hkj : k = j
              · subst hkj
                have hknot : k ∉ ks := (List.nodup_cons.mp hnd).1
                have hfr := numericLoop_frame ks m1 mm ws2 k hknot hl
                constructor
                · rw [hfr, hspec.1]
                · have hsub := numericLoop_warns_sub ks m1 mm ws2 hl
                  have hkw2 : k ∉ ws2 := fun hin => hknot (hsub hin)
                  constructor
                  · intro hin
                    rcases List.mem_append.mp hin with h1 | h2
                    · by_cases hw : w
                      · rw [← hspec.2.1]
                        exact hw
                      · simp [hw] at h1
                    · exact absurd h2 hkw2
                  · intro hw
                    apply List.mem_append.mpr
                    left
                    rw [← hspec.2.1] at hw
                    simp [hw]
              · have hkks : k ∈ ks := by
                  rcases List.mem_cons.mp hk with he | hm
                  · exact absurd he hkj
                  · exact hm
                have hih := ih m1 mm ws2 k (List.nodup_cons.mp hnd).2 hkks hl
                have hfr : dGet m1 k = dGet m k := hspec.2.2 k hkj
                constructor
                · rw [hih.1, hfr]
                · constructor
                  · intro hin
                    rcases List.mem_append.mp hin with h1 | h2
                    · by_cases hw : w
                      · simp [hw] at h1
                        exact absurd h1 hkj
                      · simp [hw] at h1
                    · rw [← hfr]
                      exact hih.2.mp h2
                  · intro hw
                    apply List.mem_append.mpr
                    right
                    rw [← hfr] at hw
                    exact hih.2.mpr hw

/-! Lemmas: the text-coercion loop. -/

theorem textStep_spec (k : String) (m : Dict) :
    dGet (textStep k m) k = textValOut (dGet m k) ∧
      ∀ f, f ≠ k → dGet (textStep k m) f = dGet m f := by
  unfold textStep
  cases hv : dGet m k with
  | none => exact ⟨by simp [textValOut, hv], fun f _ => rfl⟩
  | some v =>
      by_cases hnv : isNullV v
      · constructor
        · simp [textValOut, hv, hnv]
        · intro f _
          simp [hnv]
      · constructor
        · simp [textValOut, hv, hnv, dGet_dSet_self]
        · intro f hf
          simp only [hnv, if_false, Bool.false_eq_true]
          exact dGet_dSet_ne m k f _ (Ne.symm hf)

theorem textLoop_frame :
    ∀ (ks : List String) (m : Dict) (f : String),
      f ∉ ks → dGet (textLoop ks m) f = dGet m f := by
  intro ks
  induction ks with
  | nil => intro m f _; rfl
  | cons k ks ih =>
      intro m f hf
      have hf1 : f ∉ ks := fun hin => hf (List.mem_cons_of_mem k hin)
      have hfk : f ≠ k := fun he => hf (he ▸ List.mem_cons_self k ks)
      unfold textLoop
      rw [ih (textStep k m) f hf1, (textStep_spec k m).2 f hfk]

theorem textLoop_point :
    ∀ (ks : List String) (m : Dict) (k : String),
      ks.Nodup → k ∈ ks → dGet (textLoop ks m) k = textValOut (dGet m k) := by
  intro ks
  induction ks with
  | nil =>
      intro m k _ hk
      exact absurd hk (List.not_mem_nil k)
  | cons j ks ih =>
      intro m k hnd hk
      unfold textLoop
      by_cases hkj : k = j
      · subst hkj
        have hknot : k ∉ ks := (List.nodup_cons.mp hnd).1
        rw [textLoop_frame ks (textStep k m) k hknot, (textStep_spec k m).1]
      · have hkks : k ∈ ks := by
          rcases List.mem_cons.mp hk with he | hm
          · exact absurd he hkj
          · exact hm
        rw [ih (textStep j m) k (List.nodup_cons.mp hnd).2 hkks,
          (textStep_spec j m).2 k hkj]

/-! Lemmas: the expected-fields fill loop. -/

theorem fillStep_self (k : String) (m : Dict) :
    dGet (fillStep k m) k = some ((dGet m k).getD .null) := by
  unfold fillStep
  cases hv : dGet m k with
  | none => simp [hv, dGet_dSet_self]
  | some v => simp [hv]

theorem fillStep_ne (k : String) (m : Dict) (f : String) (hf : f ≠ k) :
    dGet (fillStep k m) f = dGet m f := by
  unfold fillStep
  by_cases hv : (dGet m k).isSome
  · simp [hv]
  · simp only [hv, if_false, Bool.false_eq_true]
    exact dGet_dSet_ne m k f .null (Ne.symm hf)

theorem fillLoop_pres :
    ∀ (ks : List String) (m : Dict) (k : String),
      (dGet m k).isSome → dGet (fillLoop ks m) k = dGet m k := by
  intro ks
  induction ks with
  | nil => intro m k _; rfl
  | cons j ks ih =>
      intro m k hk
      unfold fillLoop
      by_cases hkj : k = j
      · subst hkj
        have hstep : dGet (fillStep k m) k = dGet m k := by
          unfold fillStep
          simp [hk]
        rw [ih (fillStep k m) k (by rw [hstep]; exact hk), hstep]
      · have hstep : dGet (fillStep j m) k = dGet m k := fillStep_ne j m k hkj
        rw [ih (fillStep j m) k (by rw [hstep]; exact hk), hstep]

theorem fillLoop_frame :
    ∀ (ks : List String) (m : Dict) (f : String),
      f ∉ ks → dGet (fillLoop ks m) f = dGet m f := by
  intro ks
  induction ks with
  | nil => intro m f _; rfl
  | cons k ks ih =>
      intro m f hf
      have hf1 : f ∉ ks := fun hin => hf (List.mem_cons_of_mem k hin)
      have hfk : f ≠ k := fun he => hf (he ▸ List.mem_cons_self k ks)
      unfold fillLoop
      rw [ih (fillStep k m) f hf1, fillStep_ne k m f hfk]

theorem fillLoop_point :
    ∀ (ks : List String) (m : Dict) (k : String),
      k ∈ ks → dGet (fillLoop ks m) k = some ((dGet m k).getD .null) := by
  intro ks
  induction ks with
  | nil =>
      intro m k hk
      exact absurd hk (List.not_mem_nil k)
  | cons j ks ih =>
      intro m k hk
      unfold fillLoop
      by_cases hkj : k = j
      · subst hkj
        have h1 := fillStep_self k m
        rw [fillLoop_pres ks (fillStep k m) k (by simp [h1]), h1]
      · have hkks : k ∈ ks := by
          rcases List.mem_cons.mp hk with he | hm
          · exact absurd he hkj
          · exact hm
        rw [ih (fillStep j m) k hkks, fillStep_ne j m k hkj]

/-! Lemmas: the event_type default and the timestamp rename. -/

theorem evDefault_self (m : Dict) :
    dGet (evDefault m) "event_type" =
      some ((dGet m "event_type").getD (.str "unknown")) := by
  unfold evDefault
  cases hv : dGet m "event_type" with
  | none => simp [hv, dGet_dSet_self]
  | some v => simp [hv]

theorem evDefault_ne (m : Dict) (f : String) (hf : f ≠ "event_type") :
    dGet (evDefault m) f = dGet m f := by
  unfold evDefault
  by_cases hv : (dGet m "event_type").isSome
  · simp [hv]
  · simp only [hv, if_false, Bool.false_eq_true]
    exact dGet_dSet_ne m "event_type" f _ (Ne.symm hf)

theorem renameTs_time (m : Dict) :
    dGet (renameTs m) "time" =
      (match dGet m "timestamp" with
       | some v => some v
       | none => dGet m "time") := by
  unfold renameTs
  cases hv : dGet m "timestamp" with
  | none => rfl
  | some v => simp [dGet_dSet_self]

theorem renameTs_ne (m : Dict) (f : String) (hft : f ≠ "time")
    (hfts : f ≠ "timestamp") : dGet (renameTs m) f = dGet m f := by
  unfold renameTs
  cases hv : dGet m "timestamp" with
  | none => rfl
  | some v =>
      rw [dGet_dSet_ne _ "time" f v (Ne.symm hft)]
      exact dGet_dRemove_ne m "timestamp" f hfts

/-! The master field-by-field characterization of the record handed to the
insert statement. -/

theorem storePrep_ok (data : Dict) (h : prepOk data) :
    ∃ rec ws, storePrep data = .ok (rec, ws) ∧
      (∀ f ∈ expectedFieldNames, dGet rec f = some (fieldOut data f)) ∧
      (∀ k, k ∈ ws ↔ k ∈ numericFieldNames ∧ warnsAt k (dGet data k) = true) := by
  have hndN : numericFieldNames.Nodup := by decide
  have hndT : textFieldNames.Nodup := by decide
  have numNotEv : ∀ x ∈ numericFieldNames, x ≠ "event_type" := by decide
  have textNotEv : ∀ x ∈ textFieldNames, x ≠ "event_type" := by decide
  have disjNT : ∀ x ∈ numericFieldNames, x ∉ textFieldNames := by decide
  have disjTN : ∀ x ∈ textFieldNames, x ∉ numericFieldNames := by decide
  have expNotTs : ∀ x ∈ expectedFieldNames, x ≠ "timestamp" := by decide
  have hall : ∀ k ∈ numericFieldNames, numExn k (dGet (evDefault data) k) = none := by
    intro k hk
    rw [evDefault_ne data k (numNotEv k hk)]
    exact h k hk
  obtain ⟨m2, ws, hl⟩ := numericLoop_ok numericFieldNames (evDefault data) hndN hall
  refine ⟨fillLoop expectedFieldNames
      (renameTs (textLoop textFieldNames m2)), ws, ?_, ?_, ?_⟩
  · unfold storePrep
    rw [hl]
  · intro f hf
    rw [fillLoop_point expectedFieldNames (renameTs (textLoop textFieldNames m2)) f hf]
    by_cases hft : f = "time"
    · subst hft
      have h3ts : dGet (textLoop textFieldNames m2) "timestamp" = dGet data "timestamp" := by
        rw [textLoop_frame textFieldNames m2 "timestamp" (by decide),
          numericLoop_frame numericFieldNames (evDefault data) m2 ws "timestamp" (by decide) hl,
          evDefault_ne data "timestamp" (by decide)]
      have h3tm : dGet (textLoop textFieldNames m2) "time" = dGet data "time" := by
        rw [textLoop_frame textFieldNames m2 "time" (by decide),
          numericLoop_frame numericFieldNames (evDefault data) m2 ws "time" (by decide) hl,
          evDefault_ne data "time" (by decide)]
      rw [renameTs_time (textLoop textFieldNames m2), h3ts]
      cases hts : dGet data "timestamp" with
      | some v => simp [fieldOut, hts]
      | none =>
          rw [h3tm]
          simp [fieldOut, hts]
    · by_cases hfe : f = "event_type"
      · subst hfe
        rw [renameTs_ne (textLoop textFieldNames m2) "event_type" (by decide) (by decide),
          textLoop_frame textFieldNames m2 "event_type" (by decide),
          numericLoop_frame numericFieldNames (evDefault data) m2 ws "event_type" (by decide) hl,
          evDefault_self data]
        simp [fieldOut]
      · by_cases hfn : f ∈ numericFieldNames
        · rw [renameTs_ne (textLoop textFieldNames m2) f hft (expNotTs f hf),
            textLoop_frame textFieldNames m2 f (disjNT f hfn),
            (numericLoop_point numericFieldNames (evDefault data) m2 ws f hndN hfn hl).1,
            evDefault_ne data f (numNotEv f hfn)]
          unfold fieldOut
          rw [if_neg hft, if_neg hfe, if_pos hfn]
        · by_cases hftx : f ∈ textFieldNames
          · rw [renameTs_ne (textLoop textFieldNames m2) f hft (expNotTs f hf),
              textLoop_point textFieldNames m2 f hndT hftx,
              numericLoop_frame numericFieldNames (evDefault data) m2 ws f hfn hl,
              evDefault_ne data f (textNotEv f hftx)]
            unfold fieldOut
            rw [if_neg hft, if_neg hfe, if_neg hfn, if_pos hftx]
          · rw [renameTs_ne (textLoop textFieldNames m2) f hft (expNotTs f hf),
              textLoop_frame textFieldNames m2 f hftx,
              numericLoop_frame numericFieldNames (evDefault data) m2 ws f hfn hl,
              evDefault_ne data f hfe]
            unfold fieldOut
            rw [if_neg hft, if_neg hfe, if_neg hfn, if_neg hftx]
  · intro k
    constructor
    · intro hkw
      have hkN := numericLoop_warns_sub numericFieldNames (evDefault data) m2 ws hl hkw
      refine ⟨hkN, ?_⟩
      have hpt := (numericLoop_point numericFieldNames (evDefault data) m2 ws k hndN hkN hl).2.mp hkw
      rw [evDefault_ne data k (numNotEv k hkN)] at hpt
      exact hpt
    · rintro ⟨hkN, hw⟩
      apply (numericLoop_point numericFieldNames (evDefault data) m2 ws k hndN hkN hl).2.mpr
      rw [evDefault_ne data k (numNotEv k hkN)]
      exact hw


/-! Helper lemmas connecting the writer to the characterization. -/

theorem numericLoop_prepOk :
    ∀ (ks : List String) (m m2 : Dict) (ws : List String),
      ks.Nodup → numericLoop ks m = .ok (m2, ws) →
      ∀ k ∈ ks, numExn k (dGet m k) = none := by
  intro ks
  induction ks with
  | nil =>
      intro m m2 ws _ _ k hk
      exact absurd hk (List.not_mem_nil k)
  | cons j ks ih =>
      intro m m2 ws hnd h k hk
      unfold numericLoop at h
      cases hs : numericStep j m with
      | error e => rw [hs] at h; simp at h
      | ok p =>
          obtain ⟨m1, w⟩ := p
          rw [hs] at h
          dsimp only [] at h
          cases hl : numericLoop ks m1 with
          | error e => rw [hl] at h; simp at h
          | ok p2 =>
              rcases List.mem_cons.mp hk with he | hm
              · subst he
                cases hn : numExn k (dGet m k) with
                | none => rfl
                | some e =>
                    rw [numericStep_err_of hn] at hs
                    exact absurd hs (by simp)
              · have hkj : k ≠ j := by
                  intro he2
                  exact (List.nodup_cons.mp hnd).1 (he2 ▸ hm)
                have hfr := (numericStep_ok_spec hs).2.2 k hkj
                rw [← hfr]
                exact ih m1 p2.1 p2.2 (List.nodup_cons.mp hnd).2 hl k hm

theorem storePrep_char {data rec : Dict} {ws : List String}
    (hp : storePrep data = .ok (rec, ws)) :
    prepOk data ∧
      (∀ f ∈ expectedFieldNames, dGet rec f = some (fieldOut data f)) ∧
      (∀ k, k ∈ ws ↔ k ∈ numericFieldNames ∧ warnsAt k (dGet data k) = true) := by
  have hok : prepOk data := by
    unfold storePrep at hp
    cases hl : numericLoop numericFieldNames (evDefault data) with
    | error e => rw [hl] at hp; simp at hp
    | ok p =>
        intro k hk
        have numNotEv : ∀ x ∈ numericFieldNames, x ≠ "event_type" := by decide
        have := numericLoop_prepOk numericFieldNames (evDefault data) p.1 p.2
          (by decide) (by rw [hl]) k hk
        rw [evDefault_ne data k (numNotEv k hk)] at this
        exact this
  obtain ⟨rec2, ws2, hp2, hfields, hwarns⟩ := storePrep_ok data hok
  rw [hp] at hp2
  simp only [Except.ok.injEq, Prod.mk.injEq] at hp2
  obtain ⟨rfl, rfl⟩ := hp2
  exact ⟨hok, hfields, hwarns⟩

theorem store_commits (data : Dict) (conn : DbConn) (h : prepOk data) :
    ∃ rec ws, store_sensor_data (fun _ => true) conn data =
        (⟨.idle⟩, .committed rec ws,
          ws.map LogEntry.warnNumeric ++ [.infoStoring rec, .infoStored rec]) ∧
      (∀ f ∈ expectedFieldNames, dGet rec f = some (fieldOut data f)) ∧
      (∀ k, k ∈ ws ↔ k ∈ numericFieldNames ∧ warnsAt k (dGet data k) = true) := by
  obtain ⟨rec, ws, hp, hfields, hwarns⟩ := storePrep_ok data h
  refine ⟨rec, ws, ?_, hfields, hwarns⟩
  unfold store_sensor_data
  rw [hp]
  rfl

theorem store_reaches_insert {execOk : Dict → Bool} {conn : DbConn} {data : Dict}
    {c : DbConn} {rec : Dict} {w : List String} {lg : List LogEntry}
    (h : store_sensor_data execOk conn data = (c, .committed rec w, lg) ∨
         store_sensor_data execOk conn data = (c, .dbRolledBack rec w, lg)) :
    storePrep data = .ok (rec, w) := by
  unfold store_sensor_data at h
  cases hp : storePrep data with
  | error e =>
      rw [hp] at h
      rcases h with h | h <;> simp at h
  | ok p =>
      obtain ⟨rec0, ws0⟩ := p
      rw [hp] at h
      dsimp only [] at h
      by_cases he : execOk rec0
      · simp only [execInsert, he, if_true] at h
        rcases h with h | h <;>
          simp only [commitDb, Prod.mk.injEq, StoreOutcome.committed.injEq,
            StoreOutcome.dbRolledBack.injEq] at h
        · obtain ⟨_, ⟨rfl, rfl⟩, _⟩ := h
          rfl
        · exact absurd h.2.1 (by simp)
      · simp only [execInsert, he, if_false, Bool.false_eq_true] at h
        rcases h with h | h <;>
          simp only [rollbackDb, Prod.mk.injEq, StoreOutcome.committed.injEq,
            StoreOutcome.dbRolledBack.injEq] at h
        · exact absurd h.2.1 (by simp)
        · obtain ⟨_, ⟨rfl, rfl⟩, _⟩ := h
          rfl

theorem fieldOut_absent {data : Dict} {f : String} (hfe : f ≠ "event_type")
    (hab : dGet data f = none)
    (hts : f = "time" → dGet data "timestamp" = none) :
    fieldOut data f = .null := by
  unfold fieldOut
  by_cases hft : f = "time"
  · subst hft
    rw [if_pos rfl, hts rfl, hab]
    rfl
  · rw [if_neg hft, if_neg hfe]
    by_cases hfn : f ∈ numericFieldNames
    · rw [if_pos hfn, hab]
      rfl
    · rw [if_neg hfn]
      by_cases hftx : f ∈ textFieldNames
      · rw [if_pos hftx, hab]
        rfl
      · rw [if_neg hftx, hab]
        rfl

theorem fieldOut_ev_absent {data : Dict} (hab : dGet data "event_type" = none) :
    fieldOut data "event_type" = .str "unknown" := by
  unfold fieldOut
  rw [if_neg (by decide : ("event_type" : String) ≠ "time"), if_pos rfl, hab]
  rfl

theorem fieldOut_remove_ne {data : Dict} {k : String} (hk : k ∈ numericFieldNames)
    (f : String) (hf : f ≠ k) :
    fieldOut (dRemove data k) f = fieldOut data f := by
  have hts : ("timestamp" : String) ≠ k := by
    intro he
    exact absurd (he ▸ hk) (by decide)
  have htm : ("time" : String) ≠ k := by
    intro he
    exact absurd (he ▸ hk) (by decide)
  unfold fieldOut
  by_cases hft : f = "time"
  · subst hft
    rw [if_pos rfl, if_pos rfl, dGet_dRemove_ne data k "timestamp" hts,
      dGet_dRemove_ne data k "time" htm]
  · rw [if_neg hft, if_neg hft]
    by_cases hfe : f = "event_type"
    · subst hfe
      rw [if_pos rfl, if_pos rfl, dGet_dRemove_ne data k "event_type" hf]
    · rw [if_neg hfe, if_neg hfe, dGet_dRemove_ne data k f hf]

theorem firstIdxOf_spec (c : Char) :
    ∀ (cs : List Char) (i : Nat), firstIdxOf c cs = some i →
      (cs.drop i).head? = some c ∧ ∀ x ∈ cs.take i, x ≠ c := by
  intro cs
  induction cs with
  | nil => intro i h; simp [firstIdxOf] at h
  | cons x xs ih =>
      intro i h
      unfold firstIdxOf at h
      by_cases hx : x = c
      · rw [if_pos hx] at h
        simp only [Option.some.injEq] at h
        subst h
        subst hx
        exact ⟨rfl, by simp⟩
      · rw [if_neg hx] at h
        cases hr : firstIdxOf c xs with
        | none => rw [hr] at h; simp at h
        | some j =>
            rw [hr] at h
            simp at h
            subst h
            obtain ⟨h1, h2⟩ := ih j hr
            refine ⟨h1, ?_⟩
            intro y hy
            simp only [List.take_succ_cons, List.mem_cons] at hy
            rcases hy with rfl | hy
            · exact hx
            · exact h2 y hy

theorem connectLoop_none (outcomes : Nat → Option Nat) :
    ∀ (fuel a s : Nat), (∀ k, k < fuel → outcomes (a + k) = none) →
      connectLoop outcomes a s fuel = none := by
  intro fuel
  induction fuel with
  | zero => intro a s _; rfl
  | succ fuel ih =>
      intro a s hall
      unfold connectLoop
      have h0 : outcomes a = none := by simpa using hall 0 (Nat.succ_pos fuel)
      rw [h0]
      apply ih
      intro k hk
      have := hall (k + 1) (Nat.succ_lt_succ hk)
      rwa [Nat.add_comm k 1, ← Nat.add_assoc] at this

theorem connectLoop_some (outcomes : Nat → Option Nat) :
    ∀ (j : Nat) (fuel a s : Nat) (c : Nat),
      (∀ k, k < j → outcomes (a + k) = none) → outcomes (a + j) = some c →
      j < fuel → connectLoop outcomes a s fuel = some (c, a + j, s + 5 * j) := by
  intro j
  induction j with
  | zero =>
      intro fuel a s c _ hc hfuel
      cases fuel with
      | zero => exact absurd hfuel (by omega)
      | succ fuel =>
          unfold connectLoop
          rw [show a + 0 = a from rfl] at hc
          rw [hc]
          simp
  | succ j ih =>
      intro fuel a s c hnone hc hfuel
      cases fuel with
      | zero => exact absurd hfuel (by omega)
      | succ fuel =>
          unfold connectLoop
          have h0 : outcomes a = none := by simpa using hnone 0 (Nat.succ_pos j)
          rw [h0]
          have hrec := ih fuel (a + 1) (s + 5) c
            (fun k hk => by
              have := hnone (k + 1) (Nat.succ_lt_succ hk)
              rwa [Nat.add_comm k 1, ← Nat.add_assoc] at this)
            (by
              have he : a + 1 + j = a + (j + 1) := by omega
              rw [he]
              exact hc)
            (by omega)
          have h1 : a + 1 + j = a + (j + 1) := by omega
          have h2 : s + 5 + 5 * j = s + 5 * (j + 1) := by omega
          rw [hrec, h1, h2]

theorem handle_text_cases (jl : String → Except Unit PyVal) (execOk : Dict → Bool)
    (conn : DbConn) (t : String) :
    (handle_text jl execOk conn t).2.1 ≠ .crashed ∧
    ((handle_text jl execOk conn t).2.1 = .jsonErr ∨
        (handle_text jl execOk conn t).2.1 = .procErr →
      .errRaw t ∈ (handle_text jl execOk conn t).2.2) := by
  unfold handle_text
  cases hex : extractJsonText t with
  | error e =>
      dsimp only
      exact ⟨fun hco => MsgOutcome.noConfusion hco,
        fun _ => List.mem_cons_of_mem _ (List.mem_cons_self _ _)⟩
  | ok s =>
      dsimp only
      cases hj : jl s with
      | error e =>
          dsimp only
          exact ⟨fun hco => MsgOutcome.noConfusion hco,
            fun _ => List.mem_cons_of_mem _ (List.mem_cons_self _ _)⟩
      | ok v =>
          dsimp only
          unfold handleParsed
          cases v
          case dict entries =>
              dsimp only
              cases ht : tsStep entries with
              | error e =>
                  dsimp only
                  exact ⟨fun hco => MsgOutcome.noConfusion hco,
                    fun _ => List.mem_cons_of_mem _ (List.mem_cons_self _ _)⟩
              | ok d2 =>
                  dsimp only
                  refine ⟨fun hco => MsgOutcome.noConfusion hco, ?_⟩
                  rintro (ho | ho) <;> exact MsgOutcome.noConfusion ho
          all_goals
            dsimp only
          all_goals
            exact ⟨fun hco => MsgOutcome.noConfusion hco,
              fun _ => List.mem_cons_of_mem _ (List.mem_cons_self _ _)⟩


/-! Settling the claims. -/

/-- C1: the specification says a message without a device_id key is
persisted with device_id = "unknown", not null. The code computes that
default into the local variable of line 173 but never uses it again; for
the message consisting of the empty JSON object, the record handed to the
insert statement carries device_id as an explicit null. The theorem
evaluates the full handler on that message's payload bytes. -/
theorem c1_deviceId_null_despite_default :
    deviceIdLocal [] = .str "unknown" ∧
    dGet ([] : Dict) "device_id" = none ∧
    ∃ rec w lg c, on_message jloadsEmptyObj (fun _ => true) ⟨.idle⟩ [123, 125] =
        (c, .stored (.committed rec w), lg) ∧ dGet rec "device_id" = some .null :=
  ⟨rfl, rfl, recOfEmpty, [], _, ⟨.idle⟩, rfl, rfl⟩

/-- C2 counterexample: a present, non-empty timestamp that fails to parse
is not skipped; the ValueError escapes to the handler's outer except clause
and the record is dropped (outcome procErr, no store call), contradicting
the claim that the record is still produced and persisted. -/
theorem c2_counterexample :
    fromisoformat "not-a-time" = none ∧
    on_message jloadsBadTs (fun _ => true) ⟨.idle⟩ [120] =
      (⟨.idle⟩, .procErr, [.infoReceived "x", .errProcessing, .errRaw "x"]) :=
  ⟨rfl, rfl⟩

/-- C2 amended: when the timestamp key is absent, or present with a falsy
value (such as the empty string), the timestamp-parsing step is skipped and
the record is still produced and persisted; but a present, truthy timestamp
string that fails to parse raises an exception that is caught by the
listener's outer handler: the record is dropped and not persisted, while
the handler still returns normally. -/
theorem c2_amended (execOk : Dict → Bool) (conn : DbConn) (t : String)
    (data : Dict) :
    (dGet data "timestamp" = none → tsStep data = .ok data) ∧
    (∀ v, dGet data "timestamp" = some v → truthy v = false →
      tsStep data = .ok data) ∧
    (tsStep data = .ok data →
      handleParsed execOk conn t (.dict data) =
        ((store_sensor_data execOk conn data).1,
          .stored (store_sensor_data execOk conn data).2.1,
          (store_sensor_data execOk conn data).2.2)) ∧
    (dGet data "timestamp" = none → prepOk data →
      ∃ rec w lg c, handleParsed (fun _ => true) conn t (.dict data) =
        (c, .stored (.committed rec w), lg)) ∧
    (∀ s, dGet data "timestamp" = some (.str s) → s.toList ≠ [] →
      (s.toList.getLast? = some 'Z' → fromisoformat ⟨s.toList.dropLast⟩ = none) →
      (¬ s.toList.getLast? = some 'Z' → fromisoformat s = none) →
      handleParsed execOk conn t (.dict data) =
        (conn, .procErr, [.errProcessing, .errRaw t])) := by
  refine ⟨?_, ?_, ?_, ?_, ?_⟩
  · intro h
    unfold tsStep
    rw [h]
  · intro v hv hf
    unfold tsStep
    rw [hv]
    dsimp only
    rw [hf]
    simp
  · intro h
    unfold handleParsed
    dsimp only
    rw [h]
  · intro hts hok
    have hstep : tsStep data = .ok data := by
      unfold tsStep
      rw [hts]
    obtain ⟨rec, ws, hstore, _, _⟩ := store_commits data conn hok
    refine ⟨rec, ws,
      ws.map LogEntry.warnNumeric ++ [.infoStoring rec, .infoStored rec],
      ⟨.idle⟩, ?_⟩
    unfold handleParsed
    dsimp only
    rw [hstep]
    dsimp only
    rw [hstore]
  · intro s hv hne hz hnz
    have ht : truthy (.str s) = true := by
      unfold truthy
      dsimp only
      cases hcs : s.toList with
      | nil => exact absurd hcs hne
      | cons a as => rfl
    have hstep : tsStep data = .error .valueError := by
      unfold tsStep
      rw [hv]
      dsimp only
      rw [ht, if_pos rfl]
      by_cases hzl : s.toList.getLast? = some 'Z'
      · rw [if_pos hzl, hz hzl]
      · rw [if_neg hzl, hnz hzl]
    unfold handleParsed
    dsimp only
    rw [hstep]

/-- C2 witness: the empty-string timestamp is skipped; the message of the
counterexample is dropped with the raw text logged. -/
theorem c2_witness :
    tsStep [("timestamp", .str "")] = .ok [("timestamp", .str "")] ∧
    handleParsed (fun _ => true) ⟨.idle⟩ "x"
        (.dict [("device_id", .str "d1"), ("timestamp", .str "not-a-time")]) =
      (⟨.idle⟩, .procErr, [.errProcessing, .errRaw "x"]) :=
  ⟨(c2_amended (fun _ => true) ⟨.idle⟩ "x" [("timestamp", .str "")]).2.1
      (.str "") rfl rfl,
    (c2_amended (fun _ => true) ⟨.idle⟩ "x"
        [("device_id", .str "d1"), ("timestamp", .str "not-a-time")]).2.2.2.2
      "not-a-time" rfl (by decide) (fun h => absurd h (by decide)) (fun _ => rfl)⟩

/-- C3 counterexample: a payload that is not valid UTF-8 makes the decode of
line 156 raise before message_text is bound; the outer except clause logs
the exception and then raises NameError evaluating the raw-message f-string
of line 204, so the exception escapes the handler (outcome crashed) instead
of being caught and logged with the raw message. -/
theorem c3_counterexample :
    decodeUtf8 [255] = none ∧
    on_message jloadsEmptyObj (fun _ => true) ⟨.idle⟩ [255] =
      (⟨.idle⟩, .crashed, [.errProcessing]) :=
  ⟨rfl, rfl⟩

/-- C3 amended: for every payload that decodes as UTF-8 text, the handler
returns normally whatever the normalizer or writer does, and whenever a
per-message exception was caught the raw message text is logged; only a
payload that fails UTF-8 decoding makes the handler itself raise. -/
theorem c3_amended (jl : String → Except Unit PyVal) (execOk : Dict → Bool)
    (conn : DbConn) (payload : List Nat) (cs : List Char)
    (h : decodeUtf8 payload = some cs) :
    (on_message jl execOk conn payload).2.1 ≠ .crashed ∧
    ((on_message jl execOk conn payload).2.1 = .jsonErr ∨
        (on_message jl execOk conn payload).2.1 = .procErr →
      .errRaw ⟨cs⟩ ∈ (on_message jl execOk conn payload).2.2) := by
  unfold on_message
  rw [h]
  dsimp only
  obtain ⟨h1, h2⟩ := handle_text_cases jl execOk conn ⟨cs⟩
  exact ⟨h1, fun ho => List.mem_cons_of_mem _ (h2 ho)⟩

/-- C3 witness: a plain ASCII payload carrying garbage is dropped with the
raw text logged and the handler returns normally. -/
theorem c3_witness :
    (on_message jloadsEmptyObj (fun _ => true) ⟨.idle⟩ [104, 105]).2.1 ≠
      .crashed ∧
    .errRaw "hi" ∈ (on_message jloadsEmptyObj (fun _ => true) ⟨.idle⟩
      [104, 105]).2.2 :=
  have h := c3_amended jloadsEmptyObj (fun _ => true) ⟨.idle⟩ [104, 105]
    ['h', 'i'] rfl
  ⟨h.1, h.2 (Or.inl rfl)⟩



/-- C4 counterexample: for the empty JSON object, event_type is absent from
the input yet is persisted as the string "unknown" (the setdefault of line
72), not as null as the claim states for every absent field. -/
theorem c4_counterexample :
    dGet ([] : Dict) "event_type" = none ∧
    "event_type" ∈ expectedFieldNames ∧
    ∃ rec w lg c, store_sensor_data (fun _ => true) ⟨.idle⟩ [] =
        (c, .committed rec w, lg) ∧
      dGet rec "event_type" = some (.str "unknown") ∧
      dGet rec "event_type" ≠ some .null :=
  ⟨rfl, by decide, recOfEmpty, [], _, ⟨.idle⟩, rfl, rfl,
    fun h => PyVal.noConfusion (Option.some.inj h)⟩

/-- C4 amended: every record that reaches the insert statement carries all
fifteen fixed-schema fields; a field absent from the input is present with
an explicit null — except event_type, which defaults to the string
"unknown" (and time, which is fed by the inbound timestamp key). -/
theorem c4_amended (execOk : Dict → Bool) (conn : DbConn) (data rec : Dict)
    (w : List String) (lg : List LogEntry) (c : DbConn)
    (h : store_sensor_data execOk conn data = (c, .committed rec w, lg) ∨
         store_sensor_data execOk conn data = (c, .dbRolledBack rec w, lg)) :
    (∀ f ∈ expectedFieldNames, (dGet rec f).isSome) ∧
    (∀ f ∈ expectedFieldNames, f ≠ "event_type" → dGet data f = none →
      (f = "time" → dGet data "timestamp" = none) → dGet rec f = some .null) ∧
    (dGet data "event_type" = none →
      dGet rec "event_type" = some (.str "unknown")) := by
  have hp := store_reaches_insert h
  obtain ⟨hok, hfields, hwarns⟩ := storePrep_char hp
  refine ⟨?_, ?_, ?_⟩
  · intro f hf
    rw [hfields f hf]
    rfl
  · intro f hf hfe hab hts
    rw [hfields f hf, fieldOut_absent hfe hab hts]
  · intro hab
    have hev : "event_type" ∈ expectedFieldNames := by decide
    rw [hfields "event_type" hev, fieldOut_ev_absent hab]

/-- C4 witness: the record built from the empty object has every field
present, and an ordinary absent field such as humidity is null. -/
theorem c4_witness :
    (∀ f ∈ expectedFieldNames, (dGet recOfEmpty f).isSome) ∧
    dGet recOfEmpty "humidity" = some .null :=
  have h := c4_amended (fun _ => true) ⟨.idle⟩ [] recOfEmpty []
    [.infoStoring recOfEmpty, .infoStored recOfEmpty] ⟨.idle⟩ (Or.inl rfl)
  ⟨h.1, h.2.1 "humidity" (by decide) (by decide) rfl
    (fun hh => absurd hh (by decide))⟩

/-- C5 counterexample: JSON Infinity in an integer field makes int() raise
OverflowError, which the clause except (ValueError, TypeError) of line 84
does not catch: the whole record is rolled back and never persisted, and
the field is not degraded to null, contradicting the claim that numeric
coercion is total. -/
theorem c5_counterexample :
    convertNum "wifi_rssi" (.float .inf) = .error .overflowError ∧
    caughtVT .overflowError = false ∧
    store_sensor_data (fun _ => true) ⟨.idle⟩ [("wifi_rssi", .float .inf)] =
      (⟨.idle⟩, .unexpectedRolledBack,
        [.errUnexpectedData [("wifi_rssi", .float .inf)]]) :=
  ⟨rfl, rfl, rfl⟩

/-- C5 amended: for every record in which no numeric field holds an
infinite float destined for an integer conversion, the writer reaches the
insert and commits: any per-field conversion failure raising ValueError or
TypeError degrades exactly that field to null with a warning logged, the
other fields are unaffected (each field's outcome is a function of its own
inbound value alone), and the record is persisted. -/
theorem c5_amended (data : Dict) (conn : DbConn) (k : String)
    (hk : k ∈ numericFieldNames) (h : prepOk data) :
    ∃ rec ws, store_sensor_data (fun _ => true) conn data =
        (⟨.idle⟩, .committed rec ws,
          ws.map LogEntry.warnNumeric ++ [.infoStoring rec, .infoStored rec]) ∧
      (∀ v, dGet data k = some v → isNullV v = false →
        (∃ e, convertNum k v = .error e ∧ caughtVT e = true) →
        dGet rec k = some .null ∧ k ∈ ws ∧
          .warnNumeric k ∈
            ws.map LogEntry.warnNumeric ++ [.infoStoring rec, .infoStored rec]) ∧
      (∀ f ∈ expectedFieldNames, dGet rec f = some (fieldOut data f)) ∧
      (∀ f, f ≠ k → fieldOut (dRemove data k) f = fieldOut data f) := by
  obtain ⟨rec, ws, hstore, hfields, hwarns⟩ := store_commits data conn h
  refine ⟨rec, ws, hstore, ?_, hfields, fun f hf => fieldOut_remove_ne hk f hf⟩
  rintro v hv hnv ⟨e, hce, hcv⟩
  have hkt : k ≠ "time" := by
    intro he
    exact absurd (he ▸ hk) (by decide)
  have hke : k ≠ "event_type" := by
    intro he
    exact absurd (he ▸ hk) (by decide)
  have hkexp : k ∈ expectedFieldNames := by
    have hsub : ∀ x ∈ numericFieldNames, x ∈ expectedFieldNames := by decide
    exact hsub k hk
  have hkw : k ∈ ws := by
    apply (hwarns k).mpr
    refine ⟨hk, ?_⟩
    simp only [warnsAt, hv, hnv, Bool.false_eq_true, if_false, hce]
    exact hcv
  refine ⟨?_, hkw, ?_⟩
  · rw [hfields k hkexp]
    unfold fieldOut
    rw [if_neg hkt, if_neg hke, if_pos hk, hv]
    simp only [numValOut, hnv, Bool.false_eq_true, if_false, hce,
      Option.getD_some]
  · exact List.mem_append.mpr (Or.inl (List.mem_map.mpr ⟨k, hkw, rfl⟩))

/-- C5 witness: a non-numeric temperature string degrades to null with a
warning and the record is still committed. -/
theorem c5_witness :
    ∃ rec ws, store_sensor_data (fun _ => true) ⟨.idle⟩
        [("temperature", .str "abc")] =
        (⟨.idle⟩, .committed rec ws,
          ws.map LogEntry.warnNumeric ++ [.infoStoring rec, .infoStored rec]) ∧
      dGet rec "temperature" = some .null ∧ "temperature" ∈ ws := by
  obtain ⟨rec, ws, hstore, hdeg, _, _⟩ :=
    c5_amended [("temperature", .str "abc")] ⟨.idle⟩ "temperature"
      (by decide) (by decide)
  have hd := hdeg (.str "abc") rfl rfl ⟨.valueError, rfl, rfl⟩
  exact ⟨rec, ws, hstore, hd.1, hd.2.1⟩



/-- C6: timestamp normalization. A string ending in Z is parsed with the
marker stripped and tagged UTC; a string parsing with no offset is tagged
UTC; a string parsing with an explicit offset keeps it — so the resulting
value always carries a timezone. The value is stored back under timestamp
and renamed to time by the writer; on the round-trip message of the
specification the persisted time is UTC 2025-04-21T17:21:47. -/
theorem c6_timestamp_utc (data : Dict) (s : String) (d : PyDatetime)
    (hts : dGet data "timestamp" = some (.str s)) :
    (s.toList.getLast? = some 'Z' →
      fromisoformat ⟨s.toList.dropLast⟩ = some d →
      tsStep data = .ok (dSet data "timestamp" (.dt (withUTC d))) ∧
        (withUTC d).tz = some .utc) ∧
    (s.toList ≠ [] → ¬ s.toList.getLast? = some 'Z' →
      fromisoformat s = some d → d.tz = none →
      tsStep data = .ok (dSet data "timestamp" (.dt (withUTC d)))) ∧
    (s.toList ≠ [] → ¬ s.toList.getLast? = some 'Z' →
      fromisoformat s = some d → ∀ z, d.tz = some z →
      tsStep data = .ok (dSet data "timestamp" (.dt d))) ∧
    (∃ rec w lg, on_message jloadsRoundTrip (fun _ => true) ⟨.idle⟩ [120] =
        (⟨.idle⟩, .stored (.committed rec w), lg) ∧
      dGet rec "time" = some (.dt ⟨2025, 4, 21, 17, 21, 47, 0, some .utc⟩) ∧
      dGet rec "device_id" = some (.str "d1")) := by
  have hne_of_z : s.toList.getLast? = some 'Z' → s.toList ≠ [] := by
    intro hzl hnil
    rw [hnil] at hzl
    exact Option.noConfusion hzl
  have htruthy : s.toList ≠ [] → truthy (.str s) = true := by
    intro hne
    unfold truthy
    dsimp only
    cases hcs : s.toList with
    | nil => exact absurd hcs hne
    | cons a as => rfl
  refine ⟨?_, ?_, ?_, ?_⟩
  · intro hzl hiso
    have ht := htruthy (hne_of_z hzl)
    constructor
    · unfold tsStep
      rw [hts]
      dsimp only
      rw [ht, if_pos rfl, if_pos hzl, hiso]
    · rfl
  · intro hne hzl hiso htz
    have ht := htruthy hne
    unfold tsStep
    rw [hts]
    dsimp only
    rw [ht, if_pos rfl, if_neg hzl, hiso]
    dsimp only
    rw [htz]
    rfl
  · intro hne hzl hiso z htz
    have ht := htruthy hne
    unfold tsStep
    rw [hts]
    dsimp only
    rw [ht, if_pos rfl, if_neg hzl, hiso]
    dsimp only
    rw [htz]
    rfl
  · exact ⟨_, _, _, rfl, rfl, rfl⟩

/-- C6 witness: the round-trip timestamp string is parsed with the Z
stripped and tagged UTC. -/
theorem c6_witness :
    tsStep [("timestamp", .str "2025-04-21T17:21:47Z")] =
      .ok [("timestamp", .dt ⟨2025, 4, 21, 17, 21, 47, 0, some .utc⟩)] :=
  ((c6_timestamp_utc [("timestamp", .str "2025-04-21T17:21:47Z")]
      "2025-04-21T17:21:47Z" ⟨2025, 4, 21, 17, 21, 47, 0, none⟩ rfl).1
    rfl rfl).1

/-- C7: JSON text extraction. When the message text contains the marker
"MQTT event:", the substring starting at the first left brace is handed to
json.loads; if there is no brace the ValueError is caught by the outer
clause and logged with the raw text; without the marker the whole text is
handed to json.loads. -/
theorem c7_prefix_extraction (t : String) :
    (listContains markerChars t.toList = true →
      (∀ i, firstIdxOf lbrace t.toList = some i →
        extractJsonText t = .ok ⟨t.toList.drop i⟩ ∧
        (t.toList.drop i).head? = some lbrace ∧
        ∀ x ∈ t.toList.take i, x ≠ lbrace) ∧
      (firstIdxOf lbrace t.toList = none →
        extractJsonText t = .error .valueError ∧
        ∀ jl execOk conn, (handle_text jl execOk conn t).2.1 = .procErr ∧
          .errRaw t ∈ (handle_text jl execOk conn t).2.2)) ∧
    (listContains markerChars t.toList = false → extractJsonText t = .ok t) ∧
    (∀ (jl : String → Except Unit PyVal) execOk conn s,
      extractJsonText t = .ok s →
      handle_text jl execOk conn t =
        (match jl s with
         | .error _ => (conn, .jsonErr, [.errDecodingJson, .errRaw t])
         | .ok v => handleParsed execOk conn t v)) := by
  refine ⟨?_, ?_, ?_⟩
  · intro hm
    constructor
    · intro i hi
      refine ⟨?_, (firstIdxOf_spec lbrace t.toList i hi).1,
        (firstIdxOf_spec lbrace t.toList i hi).2⟩
      unfold extractJsonText
      rw [if_pos hm, hi]
    · intro hnone
      have hex : extractJsonText t = .error .valueError := by
        unfold extractJsonText
        rw [if_pos hm, hnone]
      refine ⟨hex, ?_⟩
      intro jl execOk conn
      unfold handle_text
      rw [hex]
      exact ⟨rfl, List.mem_cons_of_mem _ (List.mem_cons_self _ _)⟩
  · intro hm
    unfold extractJsonText
    rw [if_neg (by rw [hm]; exact Bool.false_ne_true)]
  · intro jl execOk conn s hex
    unfold handle_text
    rw [hex]

/-- C7 witness: a prefixed message is stripped to the JSON part; a prefixed
message without a brace fails extraction. -/
theorem c7_witness :
    extractJsonText "MQTT event: \x7b\x7d" = .ok "\x7b\x7d" ∧
    extractJsonText "MQTT event: no json here" = .error .valueError :=
  ⟨((((c7_prefix_extraction "MQTT event: \x7b\x7d").1 (by decide)).1 12
      (by decide))).1,
    ((((c7_prefix_extraction "MQTT event: no json here").1 (by decide)).2
      (by decide))).1⟩


/-- C8: the writer isolates store-level failures. Whatever the oracle and
the input, store_sensor_data returns normally and leaves the shared
connection idle (commit on success, rollback on any failure); a failed
insert is logged together with the offending record; and a subsequent valid
record on the same connection still commits. -/
theorem c8_writer_isolation (execOk : Dict → Bool) (conn : DbConn)
    (data : Dict) :
    (store_sensor_data execOk conn data).1.tx = .idle ∧
    (∀ rec w lg c, store_sensor_data execOk conn data =
        (c, .dbRolledBack rec w, lg) →
      .errDbData rec ∈ lg ∧ c.tx = .idle) ∧
    (∀ data2, prepOk data2 →
      ∃ rec2 w2 lg2, store_sensor_data (fun _ => true)
          (store_sensor_data execOk conn data).1 data2 =
        (⟨.idle⟩, .committed rec2 w2, lg2)) := by
  refine ⟨?_, ?_, ?_⟩
  · unfold store_sensor_data
    cases hp : storePrep data with
    | error e => rfl
    | ok p =>
        obtain ⟨rec0, ws0⟩ := p
        dsimp only
        by_cases he : execOk rec0
        · have hx : execInsert execOk conn rec0 = (⟨.inTx⟩, true) := by
            unfold execInsert
            rw [if_pos he]
          rw [hx]
          rfl
        · have hx : execInsert execOk conn rec0 = (⟨.aborted⟩, false) := by
            unfold execInsert
            rw [if_neg he]
          rw [hx]
          rfl
  · intro rec w lg c heq
    unfold store_sensor_data at heq
    cases hp : storePrep data with
    | error e =>
        rw [hp] at heq
        simp at heq
    | ok p =>
        obtain ⟨rec0, ws0⟩ := p
        rw [hp] at heq
        dsimp only at heq
        by_cases he : execOk rec0
        · have hx : execInsert execOk conn rec0 = (⟨.inTx⟩, true) := by
            unfold execInsert
            rw [if_pos he]
          rw [hx] at heq
          simp at heq
        · have hx : execInsert execOk conn rec0 = (⟨.aborted⟩, false) := by
            unfold execInsert
            rw [if_neg he]
          rw [hx] at heq
          simp only [Bool.false_eq_true, if_false, Prod.mk.injEq,
            StoreOutcome.dbRolledBack.injEq] at heq
          obtain ⟨hc, ⟨hrec, hw⟩, hlg⟩ := heq
          subst hrec
          subst hlg
          refine ⟨?_, ?_⟩
          · exact List.mem_append.mpr (Or.inr
              (List.mem_cons_of_mem _ (List.mem_cons_self _ _)))
          · rw [← hc]
            rfl
  · intro data2 hok2
    obtain ⟨rec2, ws2, heq, _, _⟩ :=
      store_commits data2 (store_sensor_data execOk conn data).1 hok2
    exact ⟨rec2, ws2, _, heq⟩

/-- C8 witness: a failing insert on the empty-object record is rolled back
with the record logged, the connection ends idle, and the next record
commits on the same connection. -/
theorem c8_witness :
    .errDbData recOfEmpty ∈
      [LogEntry.infoStoring recOfEmpty, LogEntry.errDbData recOfEmpty] ∧
    (⟨.idle⟩ : DbConn).tx = .idle ∧
    ∃ rec2 w2 lg2, store_sensor_data (fun _ => true)
        (store_sensor_data (fun _ => false) ⟨.idle⟩ []).1 [] =
      (⟨.idle⟩, .committed rec2 w2, lg2) :=
  have h := c8_writer_isolation (fun _ => false) ⟨.idle⟩ []
  have h2 := h.2.1 recOfEmpty [] [.infoStoring recOfEmpty, .errDbData recOfEmpty]
    ⟨.idle⟩ rfl
  ⟨h2.1, h2.2, h.2.2 [] (by decide)⟩

/-- C9: the connection manager. When some attempt succeeds the loop returns
the connection of the first successful attempt, having slept a constant
five seconds after each of the preceding failed attempts; and after any
number of consecutive failures the loop is still running — it never
returns a failure result. -/
theorem c9_connection_retry (outcomes : Nat → Option Nat)
    (h : ∃ n, (outcomes n).isSome) :
    outcomes (get_db_connection outcomes h).2.1 =
      some (get_db_connection outcomes h).1 ∧
    (∀ k, k < (get_db_connection outcomes h).2.1 → outcomes k = none) ∧
    (get_db_connection outcomes h).2.2 =
      5 * (get_db_connection outcomes h).2.1 ∧
    (∀ fuel, (∀ k, k < fuel → outcomes k = none) →
      connectLoop outcomes 0 0 fuel = none) := by
  have hmin : ∀ k, k < Nat.find h → outcomes k = none := by
    intro k hk
    have := Nat.find_min h hk
    cases ho : outcomes k with
    | none => rfl
    | some c => rw [ho] at this; exact absurd rfl this
  have hspec := Nat.find_spec h
  obtain ⟨c, hc⟩ := Option.isSome_iff_exists.mp hspec
  have hloop := connectLoop_some outcomes (Nat.find h) (Nat.find h + 1) 0 0 c
    (by
      intro k hk
      rw [Nat.zero_add]
      exact hmin k hk)
    (by rw [Nat.zero_add]; exact hc)
    (Nat.lt_succ_self _)
  have hget : get_db_connection outcomes h = (c, Nat.find h, 5 * Nat.find h) := by
    unfold get_db_connection
    rw [hloop]
    simp
  rw [hget]
  refine ⟨hc, hmin, rfl, ?_⟩
  intro fuel hall
  apply connectLoop_none
  intro k hk
  rw [Nat.zero_add]
  exact hall k hk

/-- C9 witness helper: in the demo history the third attempt succeeds. -/
theorem demoOutcomes_succeeds : ∃ n, (demoOutcomes n).isSome := ⟨2, by decide⟩

/-- C9 witness: on the demo history the manager returns the connection of
the first successful attempt and slept five seconds per failure. -/
theorem c9_witness :
    demoOutcomes (get_db_connection demoOutcomes demoOutcomes_succeeds).2.1 =
      some (get_db_connection demoOutcomes demoOutcomes_succeeds).1 ∧
    (get_db_connection demoOutcomes demoOutcomes_succeeds).2.2 =
      5 * (get_db_connection demoOutcomes demoOutcomes_succeeds).2.1 :=
  ⟨(c9_connection_retry demoOutcomes demoOutcomes_succeeds).1,
    (c9_connection_retry demoOutcomes demoOutcomes_succeeds).2.2.1⟩

/-- C10: integer-typed fields use int(): a finite float is truncated toward
zero (3.9 becomes 3) while a decimal string such as "3.5" fails the
conversion and degrades to null with a warning — the same quantity is kept
or dropped depending on whether it arrives as a number or a string. -/
theorem c10_int_truncation (k : String) (hk : k ∈ intFieldNames) :
    (∀ q : PreRat, convertNum k (.float (.finite q)) = .ok (.int (ratTrunc q))) ∧
    ratTrunc ⟨39, 10⟩ = 3 ∧
    (∀ s, pyIntOfString s = none → convertNum k (.str s) = .error .valueError) ∧
    pyIntOfString "3.5" = none ∧
    (∃ rec w lg c, store_sensor_data (fun _ => true) ⟨.idle⟩
        [("fan_pwm", .float (.finite ⟨39, 10⟩))] = (c, .committed rec w, lg) ∧
      dGet rec "fan_pwm" = some (.int 3)) ∧
    (∃ rec w lg c, store_sensor_data (fun _ => true) ⟨.idle⟩
        [("fan_pwm", .str "3.5")] = (c, .committed rec w, lg) ∧
      dGet rec "fan_pwm" = some .null ∧ "fan_pwm" ∈ w ∧
      .warnNumeric "fan_pwm" ∈ lg) := by
  refine ⟨?_, rfl, ?_, rfl, ?_, ?_⟩
  · intro q
    unfold convertNum
    rw [if_pos hk]
    rfl
  · intro s hs
    unfold convertNum
    rw [if_pos hk]
    simp only [pyToInt]
    rw [hs]
    rfl
  · exact ⟨_, _, _, _, rfl, rfl⟩
  · exact ⟨_, _, _, _, rfl, rfl, List.mem_cons_self _ _, List.mem_cons_self _ _⟩

/-- C10 witness: at fan_pwm, the float 3.9 converts to the integer 3 and
the string "3.5" raises ValueError. -/
theorem c10_witness :
    convertNum "fan_pwm" (.float (.finite ⟨39, 10⟩)) = .ok (.int 3) ∧
    convertNum "fan_pwm" (.str "3.5") = .error .valueError :=
  have h := c10_int_truncation "fan_pwm" (by decide)
  ⟨h.1 ⟨39, 10⟩, h.2.2.1 "3.5" rfl⟩

end IotService
